import Mathlib

/-!
Verification model of the `debugfs` repository (a 9p-style read-only
filesystem serving Debian debug symbols over HTTP).

Shallow embedding conventions:
  * Bytes are `Nat` values (0..255); remote files are `List Nat`.
  * Rust functions returning `Result` become `Except`; a Rust panic is
    modelled as `Option.none` (written `Option` around the result).
  * The HTTP transport (`hyper`), the xz decoder (`xz2`), the tar reader
    (`tokio_tar`) and the 9p wire library (`arigato`) are external crates,
    outside this repository: the transport is modelled as an ideal server
    answering `Range: bytes=a-b` requests with the requested (clipped)
    slice, a `.deb`'s decompressed `data.tar.xz` content is abstracted as a
    list of (path, bytes) tar entries, and `arigato`'s `OpenMode` /
    `Stat` serialization are modelled from the spec's interface
    description (only the read/non-read distinction and stat fields are
    ever used by this repository's code).
  * Rust `str::trim` trims Unicode whitespace; the model trims the
    White_Space code points listed in `rustWhitespace` below.
-/

namespace Debugfs

/-! ## Text utilities shared by ar.rs (raw2str) and the parsers -/

/-- White_Space code points trimmed by Rust's `str::trim`. -/
def rustWhitespace : List Nat :=
  [9, 10, 11, 12, 13, 32, 0x85, 0xA0, 0x1680,
   0x2000, 0x2001, 0x2002, 0x2003, 0x2004, 0x2005, 0x2006, 0x2007,
   0x2008, 0x2009, 0x200A, 0x2028, 0x2029, 0x202F, 0x205F, 0x3000]

def isWs (cp : Nat) : Bool := rustWhitespace.contains cp

/-- Trim whitespace code points from both ends (Rust `str::trim`). -/
def trimWs (l : List Nat) : List Nat :=
  ((l.dropWhile isWs).reverse.dropWhile isWs).reverse

def isContByte (b : Nat) : Bool := 0x80 ≤ b && b < 0xC0

/-- Decode a UTF-8 byte list into its code points, rejecting invalid
sequences exactly as Rust's `str::from_utf8` does (continuation bytes,
overlong forms, surrogates and values above 0x10FFFF all fail). -/
def decodeUtf8 : List Nat → Option (List Nat)
  | [] => some []
  | b :: rest =>
    if b < 0x80 then (decodeUtf8 rest).map (fun cs => b :: cs)
    else if b < 0xC2 then none
    else if b < 0xE0 then
      match rest with
      | b1 :: rest2 =>
        if isContByte b1 then
          (decodeUtf8 rest2).map (fun cs => ((b - 0xC0) * 0x40 + (b1 - 0x80)) :: cs)
        else none
      | _ => none
    else if b < 0xF0 then
      match rest with
      | b1 :: b2 :: rest2 =>
        if isContByte b1 && isContByte b2
            && (b != 0xE0 || 0xA0 ≤ b1) && (b != 0xED || b1 < 0xA0) then
          (decodeUtf8 rest2).map
            (fun cs => ((b - 0xE0) * 0x1000 + (b1 - 0x80) * 0x40 + (b2 - 0x80)) :: cs)
        else none
      | _ => none
    else if b < 0xF5 then
      match rest with
      | b1 :: b2 :: b3 :: rest2 =>
        if isContByte b1 && isContByte b2 && isContByte b3
            && (b != 0xF0 || 0x90 ≤ b1) && (b != 0xF4 || b1 < 0x90) then
          (decodeUtf8 rest2).map
            (fun cs => ((b - 0xF0) * 0x40000 + (b1 - 0x80) * 0x1000
                        + (b2 - 0x80) * 0x40 + (b3 - 0x80)) :: cs)
        else none
      | _ => none
    else none

def isDigitCp (cp : Nat) : Bool := 0x30 ≤ cp && cp ≤ 0x39

/-- Parse a decimal `u64` from raw field bytes the way `ar.rs` does:
UTF-8 decode, trim whitespace, then Rust's `u64::from_str` (an optional
leading `+`, then one or more decimal digits, failing on overflow). -/
def parseU64 (bytes : List Nat) : Option Nat := do
  let cps ← decodeUtf8 bytes
  let t := trimWs cps
  let t := match t with
    | 0x2B :: rest => rest
    | other => other
  if t.isEmpty then none
  else if t.all isDigitCp then
    let v := t.foldl (fun acc c => acc * 10 + (c - 0x30)) 0
    if v < 2 ^ 64 then some v else none
  else none

/-! ## hrange.rs: `HttpFile::reader_at_to`

`reader_at_to(start, len)` returns `None` when `start >= content-length`,
otherwise issues `Range: bytes=start-(start+len)` (an inclusive range,
so up to `len + 1` bytes) and streams the response body; the model is an
ideal origin serving the requested range clipped to the file's end. -/

def readerAtTo (file : List Nat) (start len : Nat) : Option (List Nat) :=
  if start ≥ file.length then none
  else some ((file.drop start).take (len + 1))

/-! ## ar.rs: the `Deb` archive cursor -/

/-- Parsed 60-byte member header (`ar.rs` `Header`); `identifier` holds
the decoded, trimmed code points of the 16-byte name field. -/
structure Header where
  identifier : List Nat
  size : Nat
  timestamp : Nat
  owner : Nat
  group : Nat
  mode : Nat
  deriving DecidableEq, Repr

/-- The `!<arch>\x0A` archive magic. -/
def arMagic : List Nat := [0x21, 0x3C, 0x61, 0x72, 0x63, 0x68, 0x3E, 0x0A]

/-- The header trailer bytes `0x60 0x0A`. -/
def arTrailer : List Nat := [0x60, 0x0A]

/-- Decode-and-trim of a raw header field (`raw2str` in `ar.rs`). -/
def rawField (bytes : List Nat) : Option (List Nat) :=
  (decodeUtf8 bytes).map trimWs

/-- Parse a 60-byte raw header: trailer checked first, then the fields in
the order the source parses them (identifier, size, timestamp, owner,
group, mode); any failure is a fatal error for the `next` call. -/
def parseHeader (b : List Nat) : Option Header := do
  if b.drop 58 ≠ arTrailer then none
  else
    let identifier ← rawField (b.take 16)
    let size ← parseU64 ((b.drop 48).take 10)
    let timestamp ← parseU64 ((b.drop 16).take 12)
    let owner ← parseU64 ((b.drop 28).take 6)
    let group ← parseU64 ((b.drop 34).take 6)
    let mode ← parseU64 ((b.drop 40).take 8)
    some { identifier, size, timestamp, owner, group, mode }

/-- Archive cursor (`Deb` in `ar.rs`): the remote file plus a byte offset. -/
structure Deb where
  file : List Nat
  offset : Nat
  deriving DecidableEq, Repr

/-- `Deb::open`: fetch bytes `[0, 8]`, `read_exact` the first 8, compare
with the magic, and start the cursor at offset 8. -/
def Deb.openDeb (file : List Nat) : Except String Deb :=
  match readerAtTo file 0 8 with
  | none => .error "file is empty"
  | some r =>
    if r.length < 8 then .error "read_exact: early eof"
    else if r.take 8 ≠ arMagic then .error "wrong file magic; is this an .ar file?"
    else .ok ⟨file, 8⟩

/-- `Deb::next`: read the 60-byte header at the cursor (`None` from the
ranged read means simply "no more members"), parse it, advance the cursor
by 60, open the body reader (again `None` means "no more members", with
the cursor left advanced), advance the cursor by `size`, and return the
header together with the bytes the body reader will yield. -/
def Deb.next (d : Deb) : Except String (Option (Header × List Nat) × Deb) :=
  match readerAtTo d.file d.offset 60 with
  | none => .ok (none, d)
  | some r =>
    if r.length < 60 then .error "read_exact: early eof"
    else
      match parseHeader (r.take 60) with
      | none => .error "header field did not parse"
      | some hdr =>
        match readerAtTo d.file (d.offset + 60) hdr.size with
        | none => .ok (none, ⟨d.file, d.offset + 60⟩)
        | some body => .ok (some (hdr, body), ⟨d.file, d.offset + 60 + hdr.size⟩)

/-- Run `k` `next` calls, requiring every one to succeed with a member;
returns the header sizes seen and the final cursor. -/
def runNexts (d : Deb) : Nat → Option (List Nat × Deb)
  | 0 => some ([], d)
  | k + 1 =>
    match Deb.next d with
    | .ok (some (hdr, _), d') =>
      (runNexts d' k).map (fun p => (hdr.size :: p.1, p.2))
    | _ => none

/-! ## deb822.rs: the paragraph parser

The async buffered source is modelled as the list of lines `read_line`
would deliver (line contents; the trailing newline is irrelevant because
the first thing the source does is `line.trim()`); end of the list is
EOF (`read_line` returning 0). -/

/-- Rust `str::trim` on a `String` (the White_Space set of
`rustWhitespace`), implemented structurally so it evaluates. -/
def isRustWsChar (c : Char) : Bool := rustWhitespace.contains c.toNat

/-- Trim whitespace characters from both ends of a string. -/
def trimStr (s : String) : String :=
  String.mk (((s.toList.dropWhile isRustWsChar).reverse.dropWhile isRustWsChar).reverse)

/-- Errors of `deb822.rs` (`Io` is unreachable in the pure model). -/
inductive Deb822Error where
  | Malformed
  | Io
  deriving DecidableEq, Repr

/-- Split at the first occurrence of a character, like `str::split_once`. -/
def splitOnceCh (c : Char) : List Char → Option (List Char × List Char)
  | [] => none
  | x :: xs =>
    if x = c then some ([], xs)
    else (splitOnceCh c xs).map (fun p => (x :: p.1, p.2))

def splitOnce (s : String) (c : Char) : Option (String × String) :=
  (splitOnceCh c s.toList).map (fun p => (String.mk p.1, String.mk p.2))

/-- `HashMap::insert` semantics over an association list: the new binding
replaces any earlier binding of the same key (last-wins). -/
def insertLW (m : List (String × String)) (k v : String) : List (String × String) :=
  (m.filter (fun kv => kv.1 != k)) ++ [(k, v)]

/-- Loop body of `deb822::next` with the fields collected so far. -/
def deb822NextGo (ret : List (String × String)) :
    List String → Except Deb822Error (Option (List (String × String)))
  | [] => if ret.isEmpty then .ok none else .ok (some ret)
  | l :: rest =>
    let t := trimStr l
    if t = "" then .ok (some ret)
    else
      match splitOnce t ':' with
      | none => .error .Malformed
      | some (k, v) => deb822NextGo (insertLW ret (trimStr k) (trimStr v)) rest

/-- `deb822::next`: collect `Key: Value` lines into a paragraph until a
blank line or EOF. -/
def deb822Next (lines : List String) : Except Deb822Error (Option (List (String × String))) :=
  deb822NextGo [] lines

/-! ## debugfs.rs: data model -/

/-- Error pairs of `arigato::server::FileError` (code, tag). -/
structure FileError where
  code : Nat
  tag : String
  deriving DecidableEq, Repr

def eperm : FileError := ⟨1, "EPERM"⟩
def enoent : FileError := ⟨2, "ENOENT"⟩
def eio : FileError := ⟨5, "EIO"⟩
def einval : FileError := ⟨22, "EINVAL"⟩
def espipe : FileError := ⟨29, "ESPIPE"⟩
def eremoteio : FileError := ⟨121, "EREMOTEIO"⟩

/-- Modelled from the spec: `arigato`'s `IoDirection` is external to this
repository; only the read / non-read distinction is ever inspected. -/
inductive IoDirection where
  | Read
  | Write
  | ReadWrite
  deriving DecidableEq, Repr

/-- Modelled from the spec: an `arigato::raw::OpenMode`, reduced to the
direction its `direction()` accessor reports. -/
structure OpenMode where
  direction : IoDirection
  deriving DecidableEq, Repr

/-- Modelled from the spec: `arigato::raw::FileType` as used by `qid()`. -/
inductive FType where
  | Dir
  | File
  deriving DecidableEq, Repr

/-- Qid identity token (type, version, path). -/
structure Qid where
  ty : FType
  version : Nat
  path : Nat
  deriving DecidableEq, Repr

/-- The fields `File::stat` populates on an `arigato` stat record. -/
structure Stat where
  name : String
  qid : Qid
  nuid : Nat
  ngid : Nat
  nmuid : Nat
  size : Nat
  mode : Nat
  deriving DecidableEq, Repr

/-- Leaf node data (`DebugHeader` in `debugfs.rs`). -/
structure DebugHeader where
  name : String
  build_id : String
  pool : String
  fspath : String
  deriving DecidableEq, Repr

/-- The three node kinds of `debugfs.rs` (`File`). The root's inner
`Directory` is kept as its entry list: its name `"/"` is produced by
`File::name` directly. -/
inductive File where
  | Root (entries : List File)
  | Directory (name : String) (entries : List File)
  | DebugHeader (h : DebugHeader)

/-- A streaming open entry (`DebEntry` in `debugfs.rs`): a monotone
offset plus the not-yet-read bytes of the borrowed tar entry reader. -/
structure DebEntry where
  offset : Nat
  stream : List Nat
  deriving DecidableEq, Repr

/-- An in-memory cursor over a byte vector (`Cursor<Vec<u8>>`). -/
structure ByteCursor where
  data : List Nat
  pos : Nat
  deriving DecidableEq, Repr

/-- Open-file handles (`OpenFile` in `debugfs.rs`). -/
inductive OpenFile where
  | Cursor (c : ByteCursor)
  | DebEntry (e : DebEntry)
  deriving DecidableEq, Repr

/-- One member of the `.deb` archive as the resolver sees it: its trimmed
identifier and, abstracting the external xz + tar pipeline, the (path,
contents) entries of its tar stream. -/
structure ArMember where
  identifier : String
  entries : List (String × List Nat)
  deriving DecidableEq, Repr

/-! ## debugfs.rs: node operations -/

/-- `File::name`. -/
def File.name : File → String
  | .Root _ => "/"
  | .Directory n _ => n
  | .DebugHeader dh => dh.name

/-- First entry whose `name()` equals the component, as the `for` loops in
`File::walk_to` search it. -/
def findByName (nm : String) : List File → Option File
  | [] => none
  | e :: rest => if e.name = nm then some e else findByName nm rest

/-- `File::walk_to`: resolve one name among this node's children;
leaves have none, a miss is `ENOENT`. -/
def File.walk_to (f : File) (pth : String) : Except FileError File :=
  match f with
  | .Root entries =>
    match findByName pth entries with
    | some v => .ok v
    | none => .error enoent
  | .Directory _ entries =>
    match findByName pth entries with
    | some v => .ok v
    | none => .error enoent
  | .DebugHeader _ => .error enoent

/-- Loop of `File::walk`. Note the source resolves every component with
`self.walk_to(part)` — against the node `walk` was called on — while
`my_path` tracks the node reached so far and is only recorded in the
walked chain. -/
def walkGo (self my_path : File) :
    List String → List File → Option File × List File
  | [], walked => (some my_path, walked)
  | part :: rest, walked =>
    match self.walk_to part with
    | .ok v => walkGo self v rest (walked ++ [my_path])
    | .error _ => (none, walked)

/-- `File::walk`. -/
def File.walk (self : File) (pth : List String) : Option File × List File :=
  match pth with
  | [] => (some self, [])
  | _ => walkGo self self pth []

/-- Hexadecimal digit characters accepted by `u64::from_str_radix(_, 16)`
(either case). -/
def isHexChar (c : Char) : Bool :=
  c.isDigit || (97 ≤ c.toNat && c.toNat ≤ 102) || (65 ≤ c.toNat && c.toNat ≤ 70)

/-- Value of a hex digit character. -/
def hexVal (c : Char) : Nat :=
  if c.isDigit then c.toNat - 48
  else if 97 ≤ c.toNat then c.toNat - 87
  else c.toNat - 55

/-- Strip the optional leading `+` sign Rust's integer parsers accept. -/
def stripPlus (l : List Char) : List Char :=
  match l with
  | c :: rest => if c = '+' then rest else c :: rest
  | [] => []

/-- Rust `u64::from_str_radix(s, 16)`: optional leading `+`, then one or
more hex digits (either case), failing on overflow. -/
def fromStrRadix16 (s : String) : Option Nat :=
  let cs := stripPlus s.toList
  if cs.isEmpty then none
  else if cs.all isHexChar then
    let v := cs.foldl (fun acc c => acc * 16 + hexVal c) 0
    if v < 2 ^ 64 then some v else none
  else none

/-- `File::qid`. The source byte-slices `build_id[..16]` and `unwrap`s
both the slice and the hex parse; `none` models the panic (for
directories, a non-hex name; for leaves, a short build-id or a first-16
that `from_str_radix` rejects). -/
def File.qid : File → Option Qid
  | .Root _ => some ⟨.Dir, 0x01, 0x01⟩
  | .Directory nm _ => (fromStrRadix16 nm).map (fun id => ⟨.Dir, 0x01, id⟩)
  | .DebugHeader dh =>
    if dh.build_id.length < 16 then none
    else (fromStrRadix16 (dh.build_id.take 16)).map (fun id => ⟨.File, 0x01, id⟩)

/-- `File::stat`: qid (which may panic), uid/gid/muid 0, the constant
size sentinel, mode 0o555 for root/directories and 0o444 for leaves. -/
def File.stat (f : File) : Option Stat :=
  (File.qid f).map fun q =>
    { name := f.name, qid := q, nuid := 0, ngid := 0, nmuid := 0,
      size := 1000000000,
      mode := match f with
        | .DebugHeader _ => 0o444
        | _ => 0o555 }

/-- Modelled from the spec: `arigato`'s `Stat::dehydrate` wire encoding is
external to this repository; the listing bytes are abstracted as a
concatenation of the stat records' fields. No claim inspects these bytes,
and the model encoding never fails (so the `EINVAL` arm of `open_dir`
is unreachable here). -/
def statDehydrate (s : Stat) : List Nat :=
  (s.name.toList.map Char.toNat)
    ++ [s.qid.version, s.qid.path, s.nuid, s.ngid, s.nmuid, s.size, s.mode]

/-- `Directory::open_dir`: reject non-read modes with `EPERM`, otherwise
serialize every child's stat into a byte cursor (a panicking `stat`,
i.e. `none`, aborts; the model serializer cannot fail). -/
def open_dir (om : OpenMode) (entries : List File) : Option (Except FileError OpenFile) :=
  match om.direction with
  | .Read =>
    (entries.mapM File.stat).map fun stats =>
      .ok (OpenFile.Cursor ⟨(stats.map statDehydrate).flatten, 0⟩)
  | _ => some (.error eperm)

/-- Sequential scan of a tar stream for a path (the `while let` over
`ar.entries()` in `DebugHeader::open_file`). -/
def findTarEntry (es : List (String × List Nat)) (p : String) : Option (List Nat) :=
  (es.find? (fun e => e.1 == p)).map (fun e => e.2)

/-- The member loop of `DebugHeader::open_file`: exhausting the archive is
`EIO`; a member named `data.tar.xz` has its tar stream scanned for the
target path, a hit is materialized, and — the tar having ended without a
match — the loop resumes with the following members. -/
def resolveLoop (fspath : String) : List ArMember → Except FileError (List Nat)
  | [] => .error eio
  | m :: rest =>
    if m.identifier == "data.tar.xz" then
      match findTarEntry m.entries ("./usr/lib/debug/.build-id/" ++ fspath) with
      | some content => .ok content
      | none => resolveLoop fspath rest
    else resolveLoop fspath rest

/-- `DebugHeader::open_file`: non-read modes are rejected with `EPERM`
before any network traffic; `members` stands for the member sequence the
`Deb` cursor yields for `self.pool` (transport, xz and tar failures all
map to `EIO` and are not modelled). A hit returns an in-memory cursor at
position 0. -/
def DebugHeader.open_file (dh : DebugHeader) (om : OpenMode) (members : List ArMember) :
    Except FileError OpenFile :=
  match om.direction with
  | .Read => (resolveLoop dh.fspath members).map (fun bytes => OpenFile.Cursor ⟨bytes, 0⟩)
  | _ => .error eperm

/-- `File::open`, dispatching on the node kind; `remote` maps a pool URL
to the member sequence of the `.deb` behind it. -/
def File.openNode (remote : String → List ArMember) (f : File) (om : OpenMode) :
    Option (Except FileError OpenFile) :=
  match f with
  | .Directory _ entries => open_dir om entries
  | .Root entries => open_dir om entries
  | .DebugHeader dh => some (DebugHeader.open_file dh om (remote dh.pool))

/-- `File::wstat`: always `EPERM`, the node untouched. -/
def File.wstat (f : File) (_ : Stat) : Except FileError Unit × File :=
  (.error eperm, f)

/-- `File::unlink`: always `EPERM`, the node untouched. -/
def File.unlink (f : File) : Except FileError Unit × File :=
  (.error eperm, f)

/-- `File::create`: always `EPERM`, the node untouched. -/
def File.create (f : File) (_ : String) (_ : Nat) (_ : FType) (_ : OpenMode) (_ : String) :
    Except FileError File × File :=
  (.error eperm, f)

/-- `DebEntry::read_at`: a read at any offset other than the current one
is `ESPIPE` and changes nothing; a sequential read takes the next
`min(buf.len, remaining)` bytes and advances the offset by that count. -/
def DebEntry.read_at (e : DebEntry) (bufLen off : Nat) : Except FileError Nat × DebEntry :=
  if off ≠ e.offset then (.error espipe, e)
  else
    (.ok (min bufLen e.stream.length),
     ⟨e.offset + min bufLen e.stream.length, e.stream.drop (min bufLen e.stream.length)⟩)

/-- `OpenFile::read_at`: the cursor variant seeks to `off` and reads; the
streaming variant delegates to `DebEntry::read_at`. -/
def OpenFile.read_at (o : OpenFile) (bufLen off : Nat) : Except FileError Nat × OpenFile :=
  match o with
  | .DebEntry e =>
    let r := DebEntry.read_at e bufLen off
    (r.1, .DebEntry r.2)
  | .Cursor c =>
    let n := min bufLen (c.data.length - off)
    (.ok n, .Cursor ⟨c.data, off + n⟩)

/-- `OpenFile::write_at`: always `EPERM`, the handle untouched. -/
def OpenFile.write_at (o : OpenFile) (_ : List Nat) (_ : Nat) :
    Except FileError Nat × OpenFile :=
  (.error eperm, o)

/-! ## debugfs.rs: `Debug::attach`

The HTTP fetch and xz decompression of `Packages.xz` are external; the
model starts from the paragraph list `deb822::next` yields. A paragraph
is the association list a `deb822Next` call produces; `HashMap::get` is
first-match lookup (keys are unique under last-wins insertion). -/

abbrev Paragraph := List (String × String)

/-- `HashMap::get` on a paragraph. -/
def pget (p : Paragraph) (k : String) : Option String :=
  (List.find? (fun kv => kv.1 == k) p).map (fun kv => kv.2)

/-- Rust `str::split(" ")` — split on every single space, keeping empty
pieces (and producing one empty piece for the empty string) — implemented
structurally over the character list. -/
def splitSpacesCh : List Char → List (List Char)
  | [] => [[]]
  | c :: rest =>
    let r := splitSpacesCh rest
    if c = ' ' then [] :: r
    else
      match r with
      | h :: t => (c :: h) :: t
      | [] => [[c]]

/-- Tokens of a `Build-Ids` value, as `build_ids.split(" ")` yields them. -/
def splitTokens (s : String) : List String := (splitSpacesCh s.toList).map String.mk

/-- Leaf constructed for one build-id token (the loop body in `attach`):
`build_id[..2]` and `build_id[2..]` are the source's byte slices, which
panic (`none`) when the token is shorter than 2. -/
def mkLeaf (archive_root path build_id : String) : Option DebugHeader :=
  if 2 ≤ build_id.length then
    some { fspath := build_id.take 2 ++ "/" ++ build_id.drop 2 ++ ".debug",
           build_id := build_id,
           name := build_id.drop 2 ++ ".debug",
           pool := archive_root ++ "/" ++ path }
  else none

/-- `entries.entry(dir).or_insert(..)` followed by a push: append the leaf
to the directory's bucket, creating the bucket on first use. -/
def bucketPush (bs : List (String × List DebugHeader)) (k : String) (leaf : DebugHeader) :
    List (String × List DebugHeader) :=
  match bs with
  | [] => [(k, [leaf])]
  | (k', ls) :: rest =>
    if k' = k then (k', ls ++ [leaf]) :: rest
    else (k', ls) :: bucketPush rest k leaf

/-- Fold of one paragraph's `Build-Ids` tokens into the bucket map;
`none` models the slice panic on a too-short token. -/
def attachTokens (root path : String) (acc : List (String × List DebugHeader)) :
    List String → Option (List (String × List DebugHeader))
  | [] => some acc
  | tok :: rest =>
    match mkLeaf root path tok with
    | none => none
    | some leaf => attachTokens root path (bucketPush acc (tok.take 2) leaf) rest

/-- Paragraph loop of `Debug::attach`: skip paragraphs missing `Build-Ids`
or `Filename`, otherwise split `Build-Ids` on single spaces and insert a
leaf per token. -/
def attachGo (root : String) (acc : List (String × List DebugHeader)) :
    List Paragraph → Option (List (String × List DebugHeader))
  | [] => some acc
  | p :: ps =>
    match pget p "Build-Ids", pget p "Filename" with
    | some bids, some path =>
      match attachTokens root path acc (splitTokens bids) with
      | none => none
      | some acc' => attachGo root acc' ps
    | _, _ => attachGo root acc ps

/-- `Debug::attach`, to the point where the bucket map is complete (the
final `HashMap` iteration order into `File::Root` is unspecified; the
bucket map itself is deterministic and is what the claims inspect). -/
def Debug.attach (root : String) (ps : List Paragraph) :
    Option (List (String × List DebugHeader)) :=
  attachGo root [] ps

/-- Bucket lookup in the attach result (empty for absent directories). -/
def bucketGet (bs : List (String × List DebugHeader)) (d : String) : List DebugHeader :=
  match bs with
  | [] => []
  | (k, ls) :: rest => if k = d then ls else bucketGet rest d

/-- Guard for the claims about well-formed indexes: every `Build-Ids`
token of every kept paragraph has at least 2 characters. -/
def noShortTokens (ps : List Paragraph) : Bool :=
  ps.all fun p =>
    match pget p "Build-Ids", pget p "Filename" with
    | some bids, some _ => (splitTokens bids).all (fun t => 2 ≤ t.length)
    | _, _ => true

/-- Spec-side leaf description (refinement counterpart of `mkLeaf`,
following the claim's words): first-level directory name = first 2 chars,
leaf name = remaining chars + `.debug`, intra-archive path =
`dir/remaining.debug`, pool URL = archive root + `/` + Filename. -/
def specLeafC6 (archive_root path build_id : String) : DebugHeader :=
  { name := build_id.drop 2 ++ ".debug",
    build_id := build_id,
    pool := archive_root ++ "/" ++ path,
    fspath := build_id.take 2 ++ "/" ++ build_id.drop 2 ++ ".debug" }

/-- Spec-side description of the leaves a directory `d` receives: all
tokens of all kept paragraphs whose first two characters are `d`, in
paragraph order, duplicates included. -/
def specLeavesC6 (root : String) (ps : List Paragraph) (d : String) : List DebugHeader :=
  ps.flatMap fun p =>
    match pget p "Build-Ids", pget p "Filename" with
    | some bids, some path =>
      ((splitTokens bids).filter (fun t => t.take 2 == d)).map (specLeafC6 root path)
    | _, _ => []

end Debugfs

namespace Debugfs

/-! ## Concrete vectors for the end-to-end scenarios -/

/-- ASCII bytes of a string literal. -/
def strBytes (s : String) : List Nat := s.toList.map Char.toNat

/-- A fixed-width ar header field: text right-padded with spaces. -/
def padField (s : String) (w : Nat) : List Nat :=
  strBytes s ++ List.replicate (w - s.length) 32

/-- A 60-byte member header with the given identifier and size text. -/
def mkHeaderBytes (id szText : String) : List Nat :=
  padField id 16 ++ padField "0" 12 ++ padField "0" 6 ++ padField "0" 6
    ++ padField "0" 8 ++ padField szText 10 ++ arTrailer

/-- Scenario 2 archive: magic, one member `hello` of size 5, payload
`world`, then EOF. -/
def helloFile : List Nat := arMagic ++ mkHeaderBytes "hello" "5" ++ strBytes "world"

/-- The `hello` archive with one extra byte (`A`) after the payload. -/
def helloPlusFile : List Nat := helloFile ++ [65]

/-- Header value the `hello` member parses to. -/
def helloHeader : Header :=
  { identifier := strBytes "hello", size := 5, timestamp := 0, owner := 0, group := 0, mode := 0 }

/-- An archive whose single zero-size member header ends exactly at EOF. -/
def zeroTailFile : List Nat := arMagic ++ mkHeaderBytes "x" "0"

end Debugfs

namespace Debugfs

/-! ## Scenario 5 tree (index attach with one build-id) -/

/-- The leaf attach builds for build-id
`aabbccddeeff00112233445566778899aabbccdd` from `pool/x.deb`. -/
def scenLeaf : DebugHeader :=
  { name := "bbccddeeff00112233445566778899aabbccdd.debug",
    build_id := "aabbccddeeff00112233445566778899aabbccdd",
    pool := "http://r/pool/x.deb",
    fspath := "aa/bbccddeeff00112233445566778899aabbccdd.debug" }

/-- The first-level directory `aa` holding that leaf. -/
def scenDirAA : File := .Directory "aa" [.DebugHeader scenLeaf]

/-- The session root of the scenario 5 tree. -/
def scenRoot : File := .Root [scenDirAA]

end Debugfs

namespace Debugfs

/-- Claim C1: the claim states that `walk` resolves each successive
component against the children of the node reached so far, so that on the
scenario 5 tree `walk(["aa", "bbccddeeff00112233445566778899aabbccdd.debug"])`
from the root returns that leaf as the target. The source instead calls
`self.walk_to(part)` for every component — resolving against the node
`walk` was invoked on — so the second component is looked up among the
root's children and the walk stops short: the result is no target and a
chain containing only the root, never the leaf. This theorem evaluates
the embedded `walk` at the claim's own input, exhibiting the divergence. -/
theorem c1_walk_second_component_resolved_at_root :
    File.walk scenRoot ["aa", "bbccddeeff00112233445566778899aabbccdd.debug"]
      = (none, [scenRoot]) := by
  rfl

end Debugfs

namespace Debugfs

/-- Claim C7: on a streaming open-file handle at offset `p`, `read_at` at
any other offset fails with `ESPIPE` (29) leaving the offset unchanged,
and a successful read of `n` bytes at offset `p` advances the offset to
exactly `p + n` (and a read at `p` does succeed, returning
`min (buffer length) (bytes remaining)`). -/
theorem c7_debentry_read_monotone (e : DebEntry) (bufLen off : Nat) :
    (off ≠ e.offset → DebEntry.read_at e bufLen off = (.error espipe, e)) ∧
    (DebEntry.read_at e bufLen e.offset).1 = .ok (min bufLen e.stream.length) ∧
    (∀ n e', DebEntry.read_at e bufLen off = (.ok n, e') →
      off = e.offset ∧ e'.offset = off + n) := by
  refine ⟨fun h => ?_, ?_, fun n e' h => ?_⟩
  · simp [DebEntry.read_at, h]
  · simp [DebEntry.read_at]
  · by_cases hoff : off = e.offset
    · subst hoff
      have hred : DebEntry.read_at e bufLen e.offset
          = (.ok (min bufLen e.stream.length),
             ⟨e.offset + min bufLen e.stream.length,
              e.stream.drop (min bufLen e.stream.length)⟩) := by
        simp [DebEntry.read_at]
      rw [hred] at h
      simp only [Prod.mk.injEq, Except.ok.injEq] at h
      obtain ⟨hn, he'⟩ := h
      subst hn
      subst he'
      exact ⟨rfl, rfl⟩
    · simp [DebEntry.read_at, hoff] at h

/-- Witness for C7: a handle at offset 0 over three bytes; reading at
offset 5 is `ESPIPE` with the state untouched, and the sequential read
at 0 returns 2 bytes. -/
theorem c7_witness :
    DebEntry.read_at ⟨0, [1, 2, 3]⟩ 2 5 = (.error espipe, ⟨0, [1, 2, 3]⟩) ∧
    (DebEntry.read_at ⟨0, [1, 2, 3]⟩ 2 0).1 = .ok 2 := by
  refine ⟨(c7_debentry_read_monotone ⟨0, [1, 2, 3]⟩ 2 5).1 (by decide), ?_⟩
  have h := (c7_debentry_read_monotone ⟨0, [1, 2, 3]⟩ 2 0).2.1
  simpa using h

/-- Claim C8: `wstat`, `unlink`, `create`, `write_at` and `open` with a
non-read mode all fail with permission-denied (`EPERM`, 1) for every node
and every argument, returning the node / handle unchanged (the tree and
open-file states are untouched). -/
theorem c8_mutation_eperm (f : File) (st : Stat) (o : OpenFile) (buf : List Nat)
    (nm ext : String) (perm cOff : Nat) (ft : FType) (om cm : OpenMode)
    (remote : String → List ArMember) (hom : om.direction ≠ .Read) :
    File.wstat f st = (.error eperm, f) ∧
    File.unlink f = (.error eperm, f) ∧
    File.create f nm perm ft cm ext = (.error eperm, f) ∧
    OpenFile.write_at o buf cOff = (.error eperm, o) ∧
    File.openNode remote f om = some (.error eperm) := by
  refine ⟨rfl, rfl, rfl, rfl, ?_⟩
  obtain ⟨dir⟩ := om
  cases dir with
  | Read => exact absurd rfl hom
  | Write => cases f <;> rfl
  | ReadWrite => cases f <;> rfl

/-- Witness for C8: opening the scenario root with a write-mode handle is
rejected with `EPERM`, as are the four mutating operations. -/
theorem c8_witness :
    (OpenMode.mk .Write).direction ≠ IoDirection.Read ∧
    File.wstat scenRoot ⟨"n", ⟨.Dir, 1, 1⟩, 0, 0, 0, 0, 0⟩ = (.error eperm, scenRoot) ∧
    File.unlink scenRoot = (.error eperm, scenRoot) ∧
    File.create scenRoot "f" 0 .File ⟨.Read⟩ "" = (.error eperm, scenRoot) ∧
    OpenFile.write_at (.Cursor ⟨[], 0⟩) [1] 0 = (.error eperm, .Cursor ⟨[], 0⟩) ∧
    File.openNode (fun _ => []) scenRoot ⟨.Write⟩ = some (.error eperm) := by
  have h := c8_mutation_eperm scenRoot ⟨"n", ⟨.Dir, 1, 1⟩, 0, 0, 0, 0, 0⟩
    (.Cursor ⟨[], 0⟩) [1] "f" "" 0 0 .File ⟨.Write⟩ ⟨.Read⟩ (fun _ => []) (by decide)
  exact ⟨by decide, h.1, h.2.1, h.2.2.1, h.2.2.2.1, h.2.2.2.2⟩

end Debugfs

namespace Debugfs

/-- The loop of `deb822::next` never reports end-of-stream once a field
has been collected: a blank line and EOF both return the collected
mapping, and field lines only grow it. -/
theorem deb822NextGo_ne_none (lines : List String) :
    ∀ ret : List (String × String), ret ≠ [] →
      deb822NextGo ret lines ≠ .ok none := by
  induction lines with
  | nil =>
    intro ret hret
    simp [deb822NextGo, List.isEmpty_iff, hret]
  | cons l rest ih =>
    intro ret hret
    simp only [deb822NextGo]
    by_cases hb : trimStr l = ""
    · simp [hb]
    · rw [if_neg hb]
      match hsp : splitOnce (trimStr l) ':' with
      | none => simp
      | some (k, v) =>
        exact ih (insertLW ret (trimStr k) (trimStr v)) (by simp [insertLW])

/-- Claim C5: `deb822::next` returns "no more paragraphs" (`None`) if and
only if the source yields EOF before any field of the current paragraph
has been collected — i.e. exactly when the call starts at EOF, since any
line either terminates the paragraph (blank), fails the call (no colon)
or collects a field — and when EOF arrives after at least one collected
field the collected paragraph is returned. (A blank line, by contrast,
returns the fields collected so far even when there are none.) -/
theorem c5_deb822_none_iff_eof_before_field
    (lines : List String) (ret : List (String × String)) :
    (deb822Next lines = .ok none ↔ lines = []) ∧
    (ret ≠ [] → deb822NextGo ret [] = .ok (some ret)) := by
  constructor
  · constructor
    · intro h
      cases lines with
      | nil => rfl
      | cons l rest =>
        exfalso
        simp only [deb822Next, deb822NextGo] at h
        by_cases hb : trimStr l = ""
        · simp [hb] at h
        · rw [if_neg hb] at h
          match hsp : splitOnce (trimStr l) ':' with
          | none => rw [hsp] at h; exact absurd h (by simp)
          | some (k, v) =>
            rw [hsp] at h
            exact deb822NextGo_ne_none rest (insertLW [] (trimStr k) (trimStr v))
              (by simp [insertLW]) h
    · rintro rfl
      rfl
  · intro hret
    simp [deb822NextGo, List.isEmpty_iff, hret]

/-- Witness for C5: a call at EOF with the single collected field
`("A", "1")` returns that paragraph, not end-of-stream. -/
theorem c5_witness :
    deb822NextGo [("A", "1")] [] = .ok (some [("A", "1")]) :=
  (c5_deb822_none_iff_eof_before_field [] [("A", "1")]).2 (by decide)

end Debugfs

namespace Debugfs

/-- A successful `next` that yields a member advances the cursor by
exactly `60 + size` and keeps the same file. -/
theorem next_some_offset (d d' : Deb) (hdr : Header) (body : List Nat)
    (h : Deb.next d = .ok (some (hdr, body), d')) :
    d'.file = d.file ∧ d'.offset = d.offset + 60 + hdr.size := by
  unfold Deb.next at h
  split at h
  · exact absurd h (by simp)
  · split at h
    · exact absurd h (by simp)
    · split at h
      · exact absurd h (by simp)
      · split at h
        · exact absurd h (by simp)
        · simp only [Except.ok.injEq, Prod.mk.injEq, Option.some.injEq] at h
          obtain ⟨⟨hh, -⟩, hd'⟩ := h
          subst hh
          subst hd'
          exact ⟨rfl, rfl⟩

/-- Over any run of `k` member-yielding `next` calls, the final cursor
offset is the starting offset plus the sum of `60 + size_i`. -/
theorem runNexts_offset (k : Nat) :
    ∀ (d d' : Deb) (sizes : List Nat), runNexts d k = some (sizes, d') →
      d'.offset = d.offset + (sizes.map (fun s => 60 + s)).sum := by
  induction k with
  | zero =>
    intro d d' sizes h
    simp only [runNexts, Option.some.injEq] at h
    obtain ⟨rfl, rfl⟩ := Prod.mk.injEq .. ▸ h
    simp
  | succ k ih =>
    intro d d' sizes h
    simp only [runNexts] at h
    split at h
    next hdr body0 d1 hn =>
      rw [Option.map_eq_some'] at h
      obtain ⟨⟨sizes1, dfin⟩, hr1, heq2⟩ := h
      simp only [Prod.mk.injEq] at heq2
      obtain ⟨hs, hfin⟩ := heq2
      subst hs
      subst hfin
      have h1 := next_some_offset d d1 hdr body0 hn
      have h2 := ih d1 dfin sizes1 hr1
      simp only [List.map_cons, List.sum_cons]
      omega
    next => exact absurd h (by simp)

/-- Claim C2: for every archive opened successfully the cursor sits at
offset 8 (just past the magic), and after `k` successful `next()` calls
returning members of sizes `size_i` the cursor offset equals
`8 + sum over i of (60 + size_i)`. -/
theorem c2_cursor_invariant (file : List Nat) (d d' : Deb) (k : Nat) (sizes : List Nat)
    (ho : Deb.openDeb file = .ok d) (hr : runNexts d k = some (sizes, d')) :
    d.offset = 8 ∧ d'.offset = 8 + (sizes.map (fun s => 60 + s)).sum := by
  have h8 : d.offset = 8 := by
    unfold Deb.openDeb at ho
    split at ho
    · exact absurd ho (by simp)
    · split at ho
      · exact absurd ho (by simp)
      · split at ho
        · exact absurd ho (by simp)
        · simp only [Except.ok.injEq] at ho
          rw [← ho]
  exact ⟨h8, by rw [← h8]; exact runNexts_offset k d d' sizes hr⟩

/-- Witness for C2: the scenario 2 archive (one `hello` member of size 5)
opens at offset 8 and, after one successful `next`, sits at
`8 + (60 + 5) = 73`. -/
theorem c2_witness :
    Deb.openDeb helloFile = .ok ⟨helloFile, 8⟩ ∧
    runNexts ⟨helloFile, 8⟩ 1 = some ([5], ⟨helloFile, 73⟩) ∧
    (Deb.mk helloFile 8).offset = 8 ∧
    (Deb.mk helloFile 73).offset = 8 + (([5].map (fun s => 60 + s)).sum) := by
  refine ⟨by rfl, by rfl, c2_cursor_invariant helloFile ⟨helloFile, 8⟩
    ⟨helloFile, 73⟩ 1 [5] (by rfl) (by rfl)⟩

end Debugfs

namespace Debugfs

/-- Claim C9: when `next` successfully reads and parses a 60-byte header
but the body's start offset `cursor + 60` is at (or, combined with the
successful header read, exactly at) the file's total length, the call
returns "no more members" — neither the parsed member nor an error — and
the cursor is left advanced by 60, not restored. -/
theorem c9_body_at_eof_none (d : Deb)
    (hread : d.offset + 60 ≤ d.file.length)
    (hend : d.file.length ≤ d.offset + 60)
    (hp : (parseHeader ((d.file.drop d.offset).take 60)).isSome = true) :
    Deb.next d = .ok (none, ⟨d.file, d.offset + 60⟩) := by
  have hlt : ¬ d.offset ≥ d.file.length := by omega
  have hr60 : ((d.file.drop d.offset).take 61).length = 60 := by
    simp only [List.length_take, List.length_drop]
    omega
  have htk : ((d.file.drop d.offset).take 61).take 60 = (d.file.drop d.offset).take 60 := by
    rw [List.take_take]
    norm_num
  obtain ⟨hdr, hph⟩ := Option.isSome_iff_exists.mp hp
  have hbody : d.offset + 60 ≥ d.file.length := hend
  simp [Deb.next, readerAtTo, hlt, hr60, htk, hph, hbody]

/-- Witness for C9: the archive whose single zero-size member header ends
exactly at EOF (68 bytes) reports "no more members" with the cursor at
68 = 8 + 60. -/
theorem c9_witness :
    (Deb.mk zeroTailFile 8).offset + 60 ≤ zeroTailFile.length ∧
    zeroTailFile.length ≤ (Deb.mk zeroTailFile 8).offset + 60 ∧
    (parseHeader ((zeroTailFile.drop 8).take 60)).isSome = true ∧
    Deb.next ⟨zeroTailFile, 8⟩ = .ok (none, ⟨zeroTailFile, 8 + 60⟩) :=
  ⟨by rfl, by rfl, by rfl,
   c9_body_at_eof_none ⟨zeroTailFile, 8⟩ (by rfl) (by rfl) (by rfl)⟩

/-- Claim C3, amended: the body reader of a returned member is the ranged
read `bytes=(cursor+60)-(cursor+60+size)` — an inclusive range — so it
yields the file's bytes from `cursor + 60` up to `size + 1` of them
(clipped at EOF), not always exactly `size`; when the member's payload
ends exactly at EOF the body is exactly those `size` payload bytes (as in
the scenario 2 `world` example). -/
theorem c3_body_inclusive_range (d d' : Deb) (hdr : Header) (body : List Nat)
    (h : Deb.next d = .ok (some (hdr, body), d')) :
    body = (d.file.drop (d.offset + 60)).take (hdr.size + 1) ∧
    (d.file.length = d.offset + 60 + hdr.size →
      body = (d.file.drop (d.offset + 60)).take hdr.size ∧ body.length = hdr.size) := by
  unfold Deb.next at h
  split at h
  · exact absurd h (by simp)
  · split at h
    · exact absurd h (by simp)
    · split at h
      · exact absurd h (by simp)
      · split at h
        next hdr0 hph hrb =>
          exact absurd h (by simp)
        next hdr0 hph body0 hrb =>
          simp only [Except.ok.injEq, Prod.mk.injEq, Option.some.injEq] at h
          obtain ⟨⟨hh, hb⟩, -⟩ := h
          subst hb
          rw [hh] at hrb
          unfold readerAtTo at hrb
          split at hrb
          · exact absurd hrb (by simp)
          · simp only [Option.some.injEq] at hrb
            subst hrb
            refine ⟨rfl, fun hflen => ?_⟩
            have hdl : (d.file.drop (d.offset + 60)).length = hdr.size := by
              simp only [List.length_drop]
              omega
            have h1 : (d.file.drop (d.offset + 60)).take (hdr.size + 1)
                = d.file.drop (d.offset + 60) :=
              List.take_of_length_le (by omega)
            have h2 : (d.file.drop (d.offset + 60)).take hdr.size
                = d.file.drop (d.offset + 60) :=
              List.take_of_length_le (by omega)
            rw [h1, h2]
            exact ⟨rfl, hdl⟩

/-- Counterexample to claim C3 as stated: in the `hello`/`world` archive
followed by one more byte (`A`), the member's header declares size 5 but
the returned body reader covers the inclusive range and yields 6 bytes
(`world` plus the following byte), not exactly 5. -/
theorem c3_counterexample :
    Deb.openDeb helloPlusFile = .ok ⟨helloPlusFile, 8⟩ ∧
    Deb.next ⟨helloPlusFile, 8⟩
      = .ok (some (helloHeader, strBytes "world" ++ [65]), ⟨helloPlusFile, 73⟩) ∧
    helloHeader.size = 5 ∧
    (strBytes "world" ++ [65]).length = 6 :=
  ⟨by rfl, by rfl, by rfl, by rfl⟩

/-- Witness for the amended C3: in the scenario 2 archive the `world`
member ends exactly at EOF, so its body is exactly the 5 payload bytes. -/
theorem c3_witness :
    Deb.next ⟨helloFile, 8⟩
      = .ok (some (helloHeader, strBytes "world"), ⟨helloFile, 73⟩) ∧
    (strBytes "world" = ((helloFile.drop (8 + 60)).take (helloHeader.size + 1)) ∧
     (helloFile.length = 8 + 60 + helloHeader.size →
       strBytes "world" = (helloFile.drop (8 + 60)).take helloHeader.size ∧
       (strBytes "world").length = helloHeader.size)) :=
  ⟨by rfl,
   c3_body_inclusive_range ⟨helloFile, 8⟩ ⟨helloFile, 73⟩ helloHeader
     (strBytes "world") (by rfl)⟩

end Debugfs

namespace Debugfs

/-- The member loop yields `EIO` whenever no `data.tar.xz` member's tar
stream contains the target path (in particular when the archive has no
`data.tar.xz` member at all). -/
theorem resolveLoop_eio (fspath : String) (ms : List ArMember)
    (hall : ∀ m ∈ ms, m.identifier = "data.tar.xz" →
      findTarEntry m.entries ("./usr/lib/debug/.build-id/" ++ fspath) = none) :
    resolveLoop fspath ms = .error eio := by
  induction ms with
  | nil => rfl
  | cons m rest ih =>
    unfold resolveLoop
    by_cases hid : m.identifier = "data.tar.xz"
    · rw [if_pos (by simp [hid])]
      rw [hall m (by simp) hid]
      exact ih (fun m' hm' hid' => hall m' (by simp [hm']) hid')
    · rw [if_neg (by simp [hid])]
      exact ih (fun m' hm' hid' => hall m' (by simp [hm']) hid')

/-- Claim C4, amended: a leaf `open` (read mode) fails with `EIO` when the
archive is exhausted without a `data.tar.xz` member, and also when every
`data.tar.xz` member's tar stream ends without the entry
`./usr/lib/debug/.build-id/(intra-archive path)` — the source's loop does
not fail at the end of a non-matching `data.tar.xz` member's tar but
resumes scanning the following members, so the `EIO` arrives only once
the member sequence is exhausted. -/
theorem c4_open_eio_when_unresolvable (dh : DebugHeader) (om : OpenMode)
    (members : List ArMember) (hom : om.direction = .Read)
    (hall : ∀ m ∈ members, m.identifier = "data.tar.xz" →
      findTarEntry m.entries ("./usr/lib/debug/.build-id/" ++ dh.fspath) = none) :
    DebugHeader.open_file dh om members = .error eio := by
  obtain ⟨dir⟩ := om
  cases dir with
  | Read =>
    show (resolveLoop dh.fspath members).map _ = _
    rw [resolveLoop_eio dh.fspath members hall]
    rfl
  | Write => exact absurd hom (by simp)
  | ReadWrite => exact absurd hom (by simp)

/-- Counterexample to claim C4 as stated: the claim demands that a
`data.tar.xz` member whose tar ends without the target entry fail the
open with `EIO` "rather than continuing"; but on an archive holding a
second `data.tar.xz` member that does contain the entry, the source's
loop continues past the first member and the open succeeds. -/
theorem c4_counterexample :
    DebugHeader.open_file
      ⟨"bb.debug", "aabb", "http://r/pool/x.deb", "aa/bb.debug"⟩ ⟨.Read⟩
      [⟨"data.tar.xz", []⟩,
       ⟨"data.tar.xz", [("./usr/lib/debug/.build-id/aa/bb.debug", [7])]⟩]
      = .ok (.Cursor ⟨[7], 0⟩) := by
  rfl

/-- Witness for the amended C4: an archive whose only `data.tar.xz`
member lacks the entry (and whose other member is `control.tar.xz`)
fails the read-mode open with `EIO`. -/
theorem c4_witness :
    ((OpenMode.mk .Read).direction = IoDirection.Read) ∧
    (∀ m ∈ [ArMember.mk "control.tar.xz" [],
            ArMember.mk "data.tar.xz" [("other", [1])]],
      m.identifier = "data.tar.xz" →
        findTarEntry m.entries ("./usr/lib/debug/.build-id/" ++
          (DebugHeader.mk "bb.debug" "aabb" "http://r/pool/x.deb" "aa/bb.debug").fspath)
          = none) ∧
    DebugHeader.open_file
      ⟨"bb.debug", "aabb", "http://r/pool/x.deb", "aa/bb.debug"⟩ ⟨.Read⟩
      [⟨"control.tar.xz", []⟩, ⟨"data.tar.xz", [("other", [1])]⟩]
      = .error eio :=
  ⟨by decide, by decide,
   c4_open_eio_when_unresolvable
     ⟨"bb.debug", "aabb", "http://r/pool/x.deb", "aa/bb.debug"⟩ ⟨.Read⟩
     [⟨"control.tar.xz", []⟩, ⟨"data.tar.xz", [("other", [1])]⟩]
     (by decide) (by decide)⟩

end Debugfs

namespace Debugfs

/-- Pushing a leaf into a bucket map appends it to exactly the bucket of
its key. -/
theorem bucketGet_push (bs : List (String × List DebugHeader)) (k d : String)
    (leaf : DebugHeader) :
    bucketGet (bucketPush bs k leaf) d
      = if d = k then bucketGet bs d ++ [leaf] else bucketGet bs d := by
  induction bs with
  | nil =>
    by_cases h1 : k = d
    · subst h1
      simp [bucketPush, bucketGet]
    · simp [bucketPush, bucketGet, h1, Ne.symm h1]
  | cons kv rest ih =>
    obtain ⟨k', ls⟩ := kv
    simp only [bucketPush, bucketGet]
    by_cases h1 : k' = k <;> by_cases h2 : k' = d <;> by_cases h3 : d = k <;>
      simp_all [bucketGet]

/-- Fidelity of the per-token leaf constructor to the spec description
when the token has at least two characters. -/
theorem mkLeaf_eq_spec (root path tok : String) (h : 2 ≤ tok.length) :
    mkLeaf root path tok = some (specLeafC6 root path tok) := by
  simp [mkLeaf, specLeafC6, h]

/-- Folding one paragraph's tokens: every token lands, as the spec-side
leaf, at the end of the bucket named by its first two characters. -/
theorem attachTokens_spec (root path : String) (toks : List String) :
    ∀ acc, (∀ t ∈ toks, 2 ≤ t.length) →
      ∃ acc', attachTokens root path acc toks = some acc' ∧
        ∀ d, bucketGet acc' d
          = bucketGet acc d
            ++ (toks.filter (fun t => t.take 2 == d)).map (specLeafC6 root path) := by
  induction toks with
  | nil =>
    intro acc _
    exact ⟨acc, rfl, fun d => by simp⟩
  | cons tok rest ih =>
    intro acc hall
    have htok : 2 ≤ tok.length := hall tok (by simp)
    obtain ⟨acc', hrun, hchar⟩ :=
      ih (bucketPush acc (tok.take 2) (specLeafC6 root path tok))
        (fun t ht => hall t (by simp [ht]))
    refine ⟨acc', ?_, ?_⟩
    · simp only [attachTokens, mkLeaf_eq_spec root path tok htok]
      exact hrun
    · intro d
      rw [hchar d, bucketGet_push]
      by_cases hd : d = tok.take 2
      · have hf : (tok.take 2 == d) = true := by simp [hd]
        simp [List.filter_cons, hf, hd]
      · have hf : (tok.take 2 == d) = false := by
          simp only [beq_eq_false_iff_ne, ne_eq]
          exact fun e => hd e.symm
        simp [List.filter_cons, hf, hd]

/-- Paragraph loop of `attach`: starting from any bucket map, processing
a short-token-free paragraph list appends to each bucket exactly the
spec-side leaves of that directory, in paragraph order. -/
theorem attachGo_spec (root : String) (ps : List Paragraph) :
    ∀ acc, noShortTokens ps = true →
      ∃ bs, attachGo root acc ps = some bs ∧
        ∀ d, bucketGet bs d = bucketGet acc d ++ specLeavesC6 root ps d := by
  induction ps with
  | nil =>
    intro acc _
    exact ⟨acc, rfl, fun d => by simp [specLeavesC6]⟩
  | cons p ps ih =>
    intro acc hns
    rw [noShortTokens, List.all_cons, Bool.and_eq_true] at hns
    obtain ⟨hhead, htail⟩ := hns
    match hb : pget p "Build-Ids", hf : pget p "Filename" with
    | some bids, some path =>
      have hlens : ∀ t ∈ splitTokens bids, 2 ≤ t.length := by
        rw [hb, hf] at hhead
        simpa [List.all_eq_true] using hhead
      obtain ⟨acc1, hrun1, hchar1⟩ := attachTokens_spec root path (splitTokens bids) acc hlens
      obtain ⟨bs, hrun2, hchar2⟩ := ih acc1 htail
      refine ⟨bs, ?_, ?_⟩
      · simp only [attachGo, hb, hf, hrun1]
        exact hrun2
      · intro d
        rw [hchar2 d, hchar1 d, List.append_assoc]
        congr 1
        simp [specLeavesC6, hb, hf]
    | some bids, none =>
      obtain ⟨bs, hrun, hchar⟩ := ih acc htail
      refine ⟨bs, by simp only [attachGo, hb, hf]; exact hrun, fun d => ?_⟩
      rw [hchar d]
      congr 1
      simp [specLeavesC6, hb, hf]
    | none, hfv =>
      obtain ⟨bs, hrun, hchar⟩ := ih acc htail
      refine ⟨bs, by simp only [attachGo, hb]; exact hrun, fun d => ?_⟩
      rw [hchar d]
      congr 1
      simp [specLeavesC6, hb]

/-- Claim C6: `attach` silently skips paragraphs missing `Build-Ids` or
`Filename` and, for every build-id token of every paragraph having both,
creates one leaf — first-level directory = first 2 characters, leaf name
= remaining characters + `.debug`, intra-archive path =
`dir/remaining.debug` — with duplicates across paragraphs kept: provided
no token is shorter than 2 characters, attach succeeds and each
directory's bucket is exactly the spec-side leaf list (in paragraph
order, one entry per token occurrence). -/
theorem c6_attach_builds_spec_leaves (root : String) (ps : List Paragraph)
    (h : noShortTokens ps = true) :
    ∃ bs, Debug.attach root ps = some bs ∧
      ∀ d, bucketGet bs d = specLeavesC6 root ps d := by
  obtain ⟨bs, hrun, hchar⟩ := attachGo_spec root ps [] h
  exact ⟨bs, hrun, fun d => by rw [hchar d]; simp [bucketGet]⟩

/-- Witness for C6: two paragraphs listing the same build-id (scenario 5's
id) both with a `Filename`, plus one paragraph missing `Build-Ids`; the
hypothesis holds and attach produces the duplicate leaves. -/
theorem c6_witness :
    noShortTokens
      [[("Build-Ids", "aabbccddeeff00112233445566778899aabbccdd"), ("Filename", "pool/x.deb")],
       [("Filename", "pool/y.deb")],
       [("Build-Ids", "aabbccddeeff00112233445566778899aabbccdd"), ("Filename", "pool/y.deb")]]
      = true ∧
    (∃ bs, Debug.attach "http://r"
      [[("Build-Ids", "aabbccddeeff00112233445566778899aabbccdd"), ("Filename", "pool/x.deb")],
       [("Filename", "pool/y.deb")],
       [("Build-Ids", "aabbccddeeff00112233445566778899aabbccdd"), ("Filename", "pool/y.deb")]]
      = some bs ∧
      ∀ d, bucketGet bs d = specLeavesC6 "http://r"
        [[("Build-Ids", "aabbccddeeff00112233445566778899aabbccdd"), ("Filename", "pool/x.deb")],
         [("Filename", "pool/y.deb")],
         [("Build-Ids", "aabbccddeeff00112233445566778899aabbccdd"), ("Filename", "pool/y.deb")]]
        d) :=
  ⟨by decide,
   c6_attach_builds_spec_leaves "http://r"
     [[("Build-Ids", "aabbccddeeff00112233445566778899aabbccdd"), ("Filename", "pool/x.deb")],
      [("Filename", "pool/y.deb")],
      [("Build-Ids", "aabbccddeeff00112233445566778899aabbccdd"), ("Filename", "pool/y.deb")]]
     (by decide)⟩

end Debugfs

namespace Debugfs

/-- `from_str_radix(_, 16)` fails whenever the text contains a character
that is neither a hex digit nor the (position-0-only) `+` sign. -/
theorem fromStrRadix16_none (s : String) (c : Char) (hc : c ∈ s.toList)
    (hhex : isHexChar c = false) (hplus : c ≠ '+') :
    fromStrRadix16 s = none := by
  have hmem : c ∈ stripPlus s.toList := by
    cases h : s.toList with
    | nil => rw [h] at hc; simp at hc
    | cons x xs =>
      rw [h] at hc
      simp only [stripPlus]
      by_cases hx : x = '+'
      · rw [if_pos hx]
        rcases List.mem_cons.mp hc with rfl | hmm
        · exact absurd hx hplus
        · exact hmm
      · rw [if_neg hx]
        exact hc
  have hall : (stripPlus s.toList).all isHexChar = false := by
    rw [List.all_eq_false]
    exact ⟨c, hmem, by simp [hhex]⟩
  by_cases he : (stripPlus s.toList).isEmpty
  · simp only [fromStrRadix16]
    rw [if_pos he]
  · simp only [fromStrRadix16]
    rw [if_neg he, if_neg (by rw [hall]; decide)]

/-- Any member token shorter than 2 characters makes the token fold of
`attach` panic (the `build_id[..2]` byte slice). -/
theorem attachTokens_none (root path : String) (toks : List String) (tok : String)
    (ht : tok ∈ toks) (hlen : tok.length < 2) :
    ∀ acc, attachTokens root path acc toks = none := by
  induction toks with
  | nil => simp at ht
  | cons t rest ih =>
    intro acc
    rcases List.mem_cons.mp ht with rfl | hmem
    · have hm : mkLeaf root path tok = none := by
        unfold mkLeaf
        rw [if_neg (by omega)]
      unfold attachTokens
      rw [hm]
    · unfold attachTokens
      cases hm : mkLeaf root path t with
      | none => rfl
      | some leaf => exact ih hmem _

/-- A short token in any kept paragraph makes the whole `attach` panic. -/
theorem attachGo_none (root : String) (ps : List Paragraph) (p : Paragraph)
    (bids fname tok : String) (hp : p ∈ ps)
    (hb : pget p "Build-Ids" = some bids) (hf : pget p "Filename" = some fname)
    (ht : tok ∈ splitTokens bids) (hlen : tok.length < 2) :
    ∀ acc, attachGo root acc ps = none := by
  induction ps with
  | nil => simp at hp
  | cons q rest ih =>
    intro acc
    rcases List.mem_cons.mp hp with rfl | hmem
    · simp only [attachGo, hb, hf]
      simp only [attachTokens_none root fname (splitTokens bids) tok ht hlen acc]
    · cases hqb : pget q "Build-Ids" with
      | none =>
        simp only [attachGo, hqb]
        exact ih hmem acc
      | some qbids =>
        cases hqf : pget q "Filename" with
        | none =>
          simp only [attachGo, hqb, hqf]
          exact ih hmem acc
        | some qpath =>
          simp only [attachGo, hqb, hqf]
          cases hqt : attachTokens root qpath acc (splitTokens qbids) with
          | none => simp
          | some acc2 =>
            simp only []
            exact ih hmem acc2

/-- Claim C10: `attach` slices each `Build-Ids` token at position 2 with
no length or character check, so a token shorter than 2 characters (e.g.
the empty token an empty value or consecutive spaces produce) panics the
whole attach instead of returning an error; and `File::qid` slices the
build-id at position 16 and `unwrap`s the hex parse, so a leaf whose
first 16 characters contain a non-hexadecimal character (other than a
leading `+`, which Rust's parser tolerates) panics the qid computation. -/
theorem c10_unchecked_slices_panic (root : String) (ps : List Paragraph) (p : Paragraph)
    (bids fname tok : String) (hp : p ∈ ps)
    (hb : pget p "Build-Ids" = some bids) (hf : pget p "Filename" = some fname)
    (ht : tok ∈ splitTokens bids) (hlen : tok.length < 2) :
    Debug.attach root ps = none ∧
    ∀ dh : DebugHeader, 16 ≤ dh.build_id.length →
      (∃ c ∈ (dh.build_id.take 16).toList, isHexChar c = false ∧ c ≠ '+') →
      File.qid (.DebugHeader dh) = none := by
  constructor
  · exact attachGo_none root ps p bids fname tok hp hb hf ht hlen []
  · intro dh hdlen hbad
    obtain ⟨c, hcmem, hchex, hcplus⟩ := hbad
    simp only [File.qid]
    rw [if_neg (by omega)]
    rw [fromStrRadix16_none (dh.build_id.take 16) c hcmem hchex hcplus]
    rfl

/-- Witness for C10: a paragraph whose `Build-Ids` value is empty yields
the single empty token and attach panics (`none`); and a leaf whose
build-id is twenty `z`s panics the qid computation. -/
theorem c10_witness :
    Debug.attach "http://r" [[("Build-Ids", ""), ("Filename", "pool/x.deb")]] = none ∧
    File.qid (.DebugHeader ⟨"n", "zzzzzzzzzzzzzzzzzzzz", "p", "f"⟩) = none := by
  have h := c10_unchecked_slices_panic "http://r"
    [[("Build-Ids", ""), ("Filename", "pool/x.deb")]]
    [("Build-Ids", ""), ("Filename", "pool/x.deb")] "" "pool/x.deb" ""
    (by decide) (by decide) (by decide) (by decide) (by decide)
  exact ⟨h.1, h.2 ⟨"n", "zzzzzzzzzzzzzzzzzzzz", "p", "f"⟩ (by decide)
    ⟨'z', by decide, by decide, by decide⟩⟩

end Debugfs
